import Mathlib

/-!
Verification of the PersonaQuant collection-and-sentiment pipeline.

Shallow embedding of the Python sources:
  * `src/data/news/news_collector.py` (date normalizer, news store, news adapters,
    collection orchestrator),
  * `src/data/social_media/social_collector.py` (the structurally identical social
    side),
  * `src/agents/tools/sentiment_analyzer.py` (per-side sentiment queries and the
    overall blend).

Modelling conventions:
  * Python / SQLite strings are Lean `String`s; the `<=` comparison Python and
    SQLite's BINARY collation apply to them is embedded as `pyLe`, an explicit
    code-point lexicographic comparison on the underlying character lists (for the
    ASCII timestamp strings involved the two agree).
  * `datetime` values are the explicit record `DateTime`; `datetime.now()` is an
    explicit `now : DateTime` argument.  `strftime('%Y-%m-%d %H:%M:%S')` is
    `fmtDT` (zero-padded fields).
  * The library date parsers (`email.utils.parsedate_to_datetime`,
    `datetime.fromisoformat`) are embedded as executable parsers over character
    lists, covering the RFC-822 / ISO-8601 shapes the collectors feed them;
    both validate calendar ranges exactly as the Python constructors do.
  * The SQLite tables are lists of `Row` in insertion order; `INSERT OR IGNORE`
    on the `url UNIQUE` constraint is `insertOrIgnore`; a caught `sqlite3.Error`
    is an explicit `dbError` flag.
  * Sentiment scores are exact rationals `ℚ`; the VADER scorer is an opaque
    parameter `scorer : String → ℚ`.  The display-only `round(x, 3)` applied to
    already-selected scores (a float operation) is not modelled: selection,
    ordering and the blend all happen on unrounded scores in the code.
-/

/-! ## Python/SQLite string comparison (code-point lexicographic) -/

/-- Lexicographic `≤` on character lists, by code point: the order Python's
string `<=` and SQLite's BINARY collation induce on the ASCII strings used here. -/
def lexLeb : List Char → List Char → Bool
  | [], _ => true
  | _ :: _, [] => false
  | a :: as, b :: bs => if a = b then lexLeb as bs else decide (a < b)

/-- String `<=` as Python / SQLite compare the timestamp strings. -/
def pyLe (a b : String) : Bool := lexLeb a.data b.data

/-- Uppercase a string character-wise (Python's `str.upper` on ASCII). -/
def upperStr (s : String) : String := ⟨s.data.map Char.toUpper⟩

/-- Does `n` occur at the start of `hay`? -/
def startsWithList : List Char → List Char → Bool
  | [], _ => true
  | _ :: _, [] => false
  | a :: as, b :: bs => a = b && startsWithList as bs

/-- Does `n` occur contiguously anywhere in `hay`?  (Python's `in` on strings.) -/
def containsList (n : List Char) : List Char → Bool
  | [] => startsWithList n []
  | b :: bs => startsWithList n (b :: bs) || containsList n bs

/-! ## DateTime values and the canonical format -/

/-- A wall-clock date and time, the fields `datetime` exposes to `strftime`. -/
structure DateTime where
  year : ℕ
  month : ℕ
  day : ℕ
  hour : ℕ
  minute : ℕ
  second : ℕ
deriving DecidableEq

/-- Gregorian leap-year rule (as Python's `calendar`/`datetime` used by the parsers). -/
def isLeap (y : ℕ) : Bool := (y % 4 == 0 && y % 100 != 0) || y % 400 == 0

/-- Days in a month of a given year. -/
def daysInMonth (y m : ℕ) : ℕ :=
  if m = 2 then (if isLeap y then 29 else 28)
  else if m = 4 ∨ m = 6 ∨ m = 9 ∨ m = 11 then 30
  else 31

/-- The field ranges Python's `datetime` constructor enforces (years 1..9999). -/
def validDT (dt : DateTime) : Bool :=
  1 ≤ dt.year && dt.year ≤ 9999 && 1 ≤ dt.month && dt.month ≤ 12 &&
  1 ≤ dt.day && dt.day ≤ daysInMonth dt.year dt.month &&
  dt.hour ≤ 23 && dt.minute ≤ 59 && dt.second ≤ 59

/-- The decimal digit character of `n % 10`. -/
def digitChar (n : ℕ) : Char := Char.ofNat (48 + n % 10)

/-- Two zero-padded decimal digits. -/
def pad2ch (n : ℕ) : List Char := [digitChar (n / 10), digitChar n]

/-- Four zero-padded decimal digits. -/
def pad4ch (n : ℕ) : List Char :=
  [digitChar (n / 1000), digitChar (n / 100), digitChar (n / 10), digitChar n]

/-- Characters of `strftime('%Y-%m-%d')`. -/
def fmtDateCh (dt : DateTime) : List Char :=
  pad4ch dt.year ++ '-' :: pad2ch dt.month ++ '-' :: pad2ch dt.day

/-- Characters of `strftime('%H:%M:%S')`. -/
def fmtTimeCh (dt : DateTime) : List Char :=
  pad2ch dt.hour ++ ':' :: pad2ch dt.minute ++ ':' :: pad2ch dt.second

/-- Format `strftime('%Y-%m-%d')`: the date-only string used for the NewsAPI
from-parameter and the sentiment day-window bound. -/
def fmtDate (dt : DateTime) : String := ⟨fmtDateCh dt⟩

/-- Format `strftime('%Y-%m-%d %H:%M:%S')`: the canonical timestamp format every
stored `published_at` uses. -/
def fmtDT (dt : DateTime) : String := ⟨fmtDateCh dt ++ ' ' :: fmtTimeCh dt⟩

/-- An ISO-8601 rendering `YYYY-MM-DDTHH:MM:SS` of a date-time (the
seconds-precision shape `datetime.isoformat()` produces, e.g. what the Reddit
adapter feeds `normalize_date`): the universal round-trip statement of C3
quantifies over these. -/
def isoRender (dt : DateTime) : String := ⟨fmtDateCh dt ++ 'T' :: fmtTimeCh dt⟩

/-! ## Embedded date parsers -/

/-- The value of a decimal digit character, if it is one. -/
def digitVal (c : Char) : Option ℕ :=
  if c.isDigit then some (c.toNat - 48) else none

/-- Read exactly two decimal digits. -/
def parse2 : List Char → Option (ℕ × List Char)
  | a :: b :: rest =>
    match digitVal a, digitVal b with
    | some x, some y => some (10 * x + y, rest)
    | _, _ => none
  | _ => none

/-- Read exactly four decimal digits. -/
def parse4 : List Char → Option (ℕ × List Char)
  | a :: b :: c :: d :: rest =>
    match digitVal a, digitVal b, digitVal c, digitVal d with
    | some w, some x, some y, some z => some (1000 * w + 100 * x + 10 * y + z, rest)
    | _, _, _, _ => none
  | _ => none

/-- Require a specific character next. -/
def expectCh (c : Char) : List Char → Option (List Char)
  | [] => none
  | b :: bs => if b = c then some bs else none

/-- Drop a run of decimal digits. -/
def skipDigits : List Char → List Char
  | [] => []
  | c :: cs => if c.isDigit then skipDigits cs else c :: cs

/-- Accept a UTC-offset suffix `±HH:MM` followed by end of input, or the end of
input itself (the shapes `fromisoformat` accepts after the clock fields, with
the offset ranges `timezone` enforces). -/
def offsetEnd : List Char → Bool
  | [] => true
  | c :: cs =>
    if c = '+' ∨ c = '-' then
      match parse2 cs with
      | some (oh, r) =>
        match expectCh ':' r with
        | some r2 =>
          match parse2 r2 with
          | some (om, []) => oh ≤ 23 && om ≤ 59
          | _ => false
        | none => false
      | none => false
    else false

/-- Accept an optional fractional-seconds part then an offset or the end. -/
def fracOffsetEnd : List Char → Bool
  | [] => true
  | c :: cs =>
    if c = '.' then
      match cs with
      | d :: ds => (digitVal d).isSome && offsetEnd (skipDigits ds)
      | [] => false
    else offsetEnd (c :: cs)

/-- After the two hour digits: optional `:MM`, optional `:SS`, optional fraction,
optional offset.  Returns the minute and second fields (absent parts are 0). -/
def timeTail : List Char → Option (ℕ × ℕ)
  | [] => some (0, 0)
  | ':' :: rest =>
    match parse2 rest with
    | none => none
    | some (mi, rest2) =>
      match rest2 with
      | [] => some (mi, 0)
      | ':' :: rest3 =>
        match parse2 rest3 with
        | none => none
        | some (s, rest4) => if fracOffsetEnd rest4 then some (mi, s) else none
      | other => if offsetEnd other then some (mi, 0) else none
  | other => if offsetEnd other then some (0, 0) else none

/-- Structural part of `datetime.fromisoformat` on the collectors' inputs:
`YYYY-MM-DDTHH[:MM[:SS[.ffff]]][±HH:MM]` (the trailing `Z` has already been
rewritten to `+00:00` by the caller, as the Python code does). -/
def isoParseRaw (cs : List Char) : Option DateTime :=
  match parse4 cs with
  | none => none
  | some (y, r1) =>
    match expectCh '-' r1 with
    | none => none
    | some r2 =>
      match parse2 r2 with
      | none => none
      | some (mo, r3) =>
        match expectCh '-' r3 with
        | none => none
        | some r4 =>
          match parse2 r4 with
          | none => none
          | some (d, r5) =>
            match expectCh 'T' r5 with
            | none => none
            | some r6 =>
              match parse2 r6 with
              | none => none
              | some (h, r7) =>
                match timeTail r7 with
                | none => none
                | some (mi, s) => some ⟨y, mo, d, h, mi, s⟩

/-- Range validation, as the `datetime` constructor performs on parsed fields. -/
def mkValid (dt : DateTime) : Option DateTime :=
  if validDT dt then some dt else none

/-- `datetime.fromisoformat`, structure plus range validation. -/
def isoParse (cs : List Char) : Option DateTime :=
  (isoParseRaw cs).bind mkValid

/-- Python's `str.replace('Z', '+00:00')` at the character level. -/
def replaceZ : List Char → List Char
  | [] => []
  | c :: cs =>
    if c = 'Z' then '+' :: '0' :: '0' :: ':' :: '0' :: '0' :: replaceZ cs
    else c :: replaceZ cs

/-- Split on spaces, dropping empty words (Python's `str.split()`). -/
def splitAux : List Char → List Char → List (List Char)
  | [], acc => if acc.isEmpty then [] else [acc.reverse]
  | ' ' :: cs, acc => if acc.isEmpty then splitAux cs [] else acc.reverse :: splitAux cs []
  | c :: cs, acc => splitAux cs (c :: acc)

/-- Words of a string separated by spaces. -/
def splitSpaces (cs : List Char) : List (List Char) := splitAux cs []

/-- Split a word on `':'` (for the `HH:MM:SS` token of an RFC-822 date). -/
def splitColonAux : List Char → List Char → List (List Char)
  | [], acc => [acc.reverse]
  | ':' :: cs, acc => acc.reverse :: splitColonAux cs []
  | c :: cs, acc => splitColonAux cs (c :: acc)

/-- Parts of a word separated by `':'`. -/
def splitColon (cs : List Char) : List (List Char) := splitColonAux cs []

/-- The numeric value of a non-empty all-digit word. -/
def digitsValAux : List Char → ℕ → Option ℕ
  | [], acc => some acc
  | c :: cs, acc =>
    match digitVal c with
    | some v => digitsValAux cs (acc * 10 + v)
    | none => none

/-- Parse a non-empty run of digits as a number. -/
def natOfDigits : List Char → Option ℕ
  | [] => none
  | c :: cs => digitsValAux (c :: cs) 0

/-- English month abbreviations, lowercase, in order (as `email.utils` matches). -/
def monthNames : List (List Char) :=
  ["jan".data, "feb".data, "mar".data, "apr".data, "may".data, "jun".data,
   "jul".data, "aug".data, "sep".data, "oct".data, "nov".data, "dec".data]

/-- Month number of a month-name word, case-insensitively. -/
def monthNum (w : List Char) : Option ℕ :=
  match (monthNames.indexOf? (w.map Char.toLower)) with
  | some i => some (i + 1)
  | none => none

/-- Lowercased day-of-week abbreviations an RFC-822 date may start with. -/
def dayNames : List (List Char) :=
  ["mon".data, "tue".data, "wed".data, "thu".data, "fri".data, "sat".data, "sun".data]

/-- Does the word end with a comma? -/
def endsComma (w : List Char) : Bool :=
  match w.reverse with
  | ',' :: _ => true
  | _ => false

/-- Parse the `HH:MM:SS` (or `HH:MM`) word of an RFC-822 date. -/
def rfcTime (w : List Char) : Option (ℕ × ℕ × ℕ) :=
  match splitColon w with
  | [hh, mm, ss] =>
    match natOfDigits hh, natOfDigits mm, natOfDigits ss with
    | some h, some m, some s => some (h, m, s)
    | _, _, _ => none
  | [hh, mm] =>
    match natOfDigits hh, natOfDigits mm with
    | some h, some m => some (h, m, 0)
    | _, _ => none
  | _ => none

/-- Structural part of `email.utils.parsedate_to_datetime` on the collectors'
inputs: `[Day,] DD Mon YYYY HH:MM[:SS] ZONE`, four-digit years.  The zone token
only selects an offset; `strftime` then prints the unchanged wall-clock fields,
so the zone is not interpreted here. -/
def rfc822ParseRaw (s : String) : Option DateTime :=
  let toks := splitSpaces s.data
  let toks :=
    match toks with
    | t :: rest => if endsComma t || dayNames.contains (t.map Char.toLower) then rest else toks
    | [] => []
  match toks with
  | d :: mo :: y :: time :: _ =>
    match natOfDigits d, monthNum mo, natOfDigits y, rfcTime time with
    | some dd, some mm, some yy, some (h, mi, ss) =>
      if y.length = 4 then some ⟨yy, mm, dd, h, mi, ss⟩ else none
    | _, _, _, _ => none
  | _ => none

/-- `parsedate_to_datetime`, structure plus range validation. -/
def rfc822Parse (s : String) : Option DateTime :=
  (rfc822ParseRaw s).bind mkValid

/-! ## The date normalizer (`normalize_date`, identical in both collectors) -/

/-- Embedding of `normalize_date` from `news_collector.py` / `social_collector.py`.
`now` stands for `datetime.now()`; the Python truthiness test `if not date_str`
is the `none` / empty-string case.  A parser failure (the caught `ValueError` /
`TypeError` / `AttributeError`) is a parser returning `none`. -/
def normalize_date (now : DateTime) (date_str : Option String) : String :=
  match date_str with
  | none => fmtDT now
  | some s =>
    if s = "" then fmtDT now
    else if containsList "GMT".data s.data || containsList "UTC".data s.data then
      match rfc822Parse s with
      | some dt => fmtDT dt
      | none => fmtDT now
    else if s.data.contains 'T' then
      match isoParse (replaceZ s.data) with
      | some dt => fmtDT dt
      | none => fmtDT now
    else fmtDT now

/-! ## The persistence store (`news` / `social_posts` tables) -/

/-- One row of the `news` (or structurally identical `social_posts`) table,
in insertion order.  `content` is the nullable TEXT column. -/
structure Row where
  ticker : String
  title : String
  content : Option String
  url : String
  source : String
  published_at : String
deriving DecidableEq

/-- SQLite `INSERT OR IGNORE` against the `url TEXT UNIQUE` constraint: the row
is appended unless a row with the same url value is already present. -/
def insertOrIgnore (db : List Row) (r : Row) : List Row :=
  if db.any (fun q => q.url == r.url) then db else db ++ [r]

/-- Embedding of `store_article`: on a caught `sqlite3.Error` (`dbError`) the
table is untouched and the call returns `false`; otherwise the insert-or-ignore
runs and the call returns `true` — whether or not a row was actually added. -/
def store_article (db : List Row) (dbError : Bool) (r : Row) : List Row × Bool :=
  if dbError then (db, false) else (insertOrIgnore db r, true)

/-- Operation `store_post` of the social collector: the same operation on the
`social_posts` table. -/
def store_post (db : List Row) (dbError : Bool) (r : Row) : List Row × Bool :=
  store_article db dbError r

/-- SQL `MAX` over TEXT values (BINARY collation), `none` on an empty set. -/
def maxPub : List String → Option String
  | [] => none
  | s :: rest =>
    match maxPub rest with
    | none => some s
    | some m => some (if pyLe s m then m else s)

/-- Embedding of `get_latest_published_date`: `MAX(published_at)` over the rows
of one ticker; the Python `result[0] if result[0] else None` maps an empty-string
(or absent) maximum to `None`. -/
def get_latest_published_date (db : List Row) (t : String) : Option String :=
  match maxPub ((db.filter (fun r => r.ticker == t)).map Row.published_at) with
  | none => none
  | some m => if m = "" then none else some m

/-- The store loop at the end of `collect_news_for_ticker` /
`collect_social_for_ticker`: every collected candidate row is offered to the
store in order. -/
def collectRun (db : List Row) (cands : List Row) : List Row :=
  cands.foldl insertOrIgnore db

/-! ## Source adapters (watermark and ticker-relevance filtering) -/

/-- A candidate produced by an adapter: the
`(title, content, url, source, published_at)` tuples the collectors accumulate. -/
structure Candidate where
  title : String
  content : String
  url : String
  source : String
  published_at : String
deriving DecidableEq

/-- The Python guard `if latest_date and article_date <= latest_date: continue`:
skip only when the watermark is truthy (non-null, non-empty) and the normalized
date is `<=` it. -/
def wmSkip (wm : Option String) (d : String) : Bool :=
  match wm with
  | none => false
  | some w => if w = "" then false else pyLe d w

/-- One RSS entry as the news collector reads it (`entry.get` defaults already
applied, so absent fields are empty strings). -/
structure FeedEntry where
  title : String
  summary : String
  link : String
  published : String
deriving DecidableEq

/-- The per-entry body of the RSS loop of `collect_news_for_ticker` (lines
223–240): normalize the date, drop entries at or before the watermark, keep
entries mentioning the ticker (case-insensitive substring of title+summary). -/
def rssCandidates (ticker : String) (wm : Option String) (now : DateTime)
    (source : String) (entries : List FeedEntry) : List Candidate :=
  entries.filterMap fun e =>
    let d := normalize_date now (some e.published)
    if wmSkip wm d then none
    else if containsList (upperStr ticker).data
        (upperStr (e.title ++ " " ++ e.summary)).data then
      some ⟨e.title, e.summary, e.link, "RSS (" ++ source ++ ")", d⟩
    else none

/-- One Reddit submission as the social collector reads it; `created_iso` is the
`datetime.fromtimestamp(created_utc).isoformat()` string. -/
structure Submission where
  title : String
  selftext : String
  permalink : String
  created_iso : String
deriving DecidableEq

/-- The per-submission body of `collect_reddit_posts` (lines 119–133) for one
subreddit: watermark filter, then ticker match in title or selftext. -/
def redditCandidates (ticker : String) (wm : Option String) (now : DateTime)
    (subName : String) (subs : List Submission) : List Candidate :=
  subs.filterMap fun p =>
    let d := normalize_date now (some p.created_iso)
    if wmSkip wm d then none
    else if containsList (upperStr ticker).data (upperStr p.title).data
        || containsList (upperStr ticker).data (upperStr p.selftext).data then
      some ⟨p.title, p.selftext, "https://reddit.com" ++ p.permalink,
        "Reddit (" ++ subName ++ ")", d⟩
    else none

/-- Embedding of `collect_reddit_posts`: the subreddits are visited in order and
their kept candidates concatenated. -/
def collect_reddit_posts (ticker : String) (wm : Option String) (now : DateTime)
    (srs : List (String × List Submission)) : List Candidate :=
  (srs.map fun sr => redditCandidates ticker wm now sr.1 sr.2).flatten

/-! ## The sentiment aggregator -/

/-- Embedding of `analyze_sentiment`: falsy text (None or the empty string)
short-circuits to 0.0 without consulting the scorer; otherwise the opaque
VADER compound score is returned. -/
def analyze_sentiment (scorer : String → ℚ) (text : Option String) : ℚ :=
  match text with
  | none => 0
  | some s => if s = "" then 0 else scorer s

/-- The `f"{title}; {content or ''}"` concatenation scored per record. -/
def recordText (r : Row) : String := r.title ++ "; " ++ r.content.getD ""

/-- The sentiment score of each queried record, in query order. -/
def recordScores (scorer : String → ℚ) (rows : List Row) : List ℚ :=
  rows.map fun r => analyze_sentiment scorer (some (recordText r))

/-- Insert into a descending-sorted list (keeping it descending). -/
def insertDesc (x : ℚ) : List ℚ → List ℚ
  | [] => [x]
  | y :: ys => if y < x then x :: y :: ys else y :: insertDesc x ys

/-- Python's `sorted(..., reverse=True)` on the score multiset: descending order. -/
def sortDesc (l : List ℚ) : List ℚ := l.foldr insertDesc []

/-- Selection `[... for art in sorted_articles[:10] if ...]` with the guard
`sentiment > 0`: the first ten of the descending ranking, restricted to
strictly positive scores. -/
def topPositive (scores : List ℚ) : List ℚ :=
  ((sortDesc scores).take 10).filter fun x => decide (0 < x)

/-- Selection `list(reversed([... for art in sorted_articles[-10:] if ...]))`
with the guard `sentiment < 0`: the last ten of the descending ranking,
restricted to strictly negative scores, re-ordered most-negative-first. -/
def topNegative (scores : List ℚ) : List ℚ :=
  ((((sortDesc scores).drop ((sortDesc scores).length - 10)).filter
    fun x => decide (x < 0))).reverse

/-- The dictionary `get_news_sentiment` returns (scores unrounded, see header). -/
structure NewsResult where
  count : ℕ
  sentiment : ℚ
  top_positive : List ℚ
  top_negative : List ℚ
  error : Option String
deriving DecidableEq

/-- Embedding of `get_news_sentiment` downstream of the store query: a raised
query (`Except.error`) degrades to the zeroed dictionary with the error string
attached; an empty result short-circuits to zeroes; otherwise count, mean and
the two top-10 lists are computed from the queried rows. -/
def get_news_sentiment (scorer : String → ℚ) (q : Except String (List Row)) :
    NewsResult :=
  match q with
  | .error e => ⟨0, 0, [], [], some e⟩
  | .ok arts =>
    if arts.isEmpty then ⟨0, 0, [], [], none⟩
    else
      let scores := recordScores scorer arts
      ⟨arts.length, scores.sum / arts.length, topPositive scores,
        topNegative scores, none⟩

/-- The dictionary `get_social_sentiment` returns. -/
structure SocialResult where
  count : ℕ
  sentiment : ℚ
  error : Option String
deriving DecidableEq

/-- Embedding of `get_social_sentiment`: as the news side but mean-only. -/
def get_social_sentiment (scorer : String → ℚ) (q : Except String (List Row)) :
    SocialResult :=
  match q with
  | .error e => ⟨0, 0, some e⟩
  | .ok posts =>
    if posts.isEmpty then ⟨0, 0, none⟩
    else ⟨posts.length, (recordScores scorer posts).sum / posts.length, none⟩

/-- The count-weighted overall blend of `get_sentiment_score` (lines 188–197). -/
def overallScore (n s : ℚ) (nc sc : ℕ) : ℚ :=
  if nc + sc = 0 then 0 else (n * nc + s * sc) / (nc + sc)

/-- The fixed-threshold label of `get_sentiment_score` (lines 200–205). -/
def sentimentLabel (x : ℚ) : String :=
  if 1/10 < x then "Positive"
  else if x < -(1/10) then "Negative"
  else "Neutral"

/-! ## The sentiment day window -/

/-- Step one calendar day backwards. -/
def prevDay (dt : DateTime) : DateTime :=
  if 1 < dt.day then { dt with day := dt.day - 1 }
  else if 1 < dt.month then
    { dt with month := dt.month - 1, day := daysInMonth dt.year (dt.month - 1) }
  else { dt with year := dt.year - 1, month := 12, day := 31 }

/-- Subtraction `now - timedelta(days=n)`: whole days leave the clock fields
unchanged. -/
def subDays : DateTime → ℕ → DateTime
  | dt, 0 => dt
  | dt, n + 1 => subDays (prevDay dt) n

/-- Bound `(datetime.now() - timedelta(days=days)).strftime('%Y-%m-%d')`: the
date-only lower bound the sentiment queries compare `published_at` against. -/
def dateLimit (now : DateTime) (days : ℕ) : String := fmtDate (subDays now days)

/-- The store's `SELECT ... WHERE ticker = ? AND published_at >= ?` in insertion
order (TEXT comparison under BINARY collation). -/
def sqlQuery (db : List Row) (t : String) (since : String) : List Row :=
  db.filter fun r => r.ticker == t && pyLe since r.published_at

/-- The rows `get_news_sentiment` (and identically `get_social_sentiment`)
queries and scores for a ticker and a day window. -/
def queryWindow (db : List Row) (t : String) (now : DateTime) (days : ℕ) :
    List Row :=
  sqlQuery db t (dateLimit now days)

/-! ## Concrete values used in closed instances -/

/-- A concrete article row used for closed instances. -/
def rowA : Row :=
  ⟨"AAPL", "Apple rallies", some "desc", "https://x/a", "RSS (X)", "2024-03-05 14:30:00"⟩

/-- Order on optional watermarks: `none` (no data yet) is below everything;
a present watermark may only grow. -/
def wmLe : Option String → Option String → Prop
  | none, _ => True
  | some _, none => False
  | some a, some b => pyLe a b = true

/-- A concrete feed entry whose normalized date sits past the watermark. -/
def entryE : FeedEntry := ⟨"AAPL up", "", "https://x/e", "2024-03-05T14:30:00Z"⟩

/-- The clock at which the C9 counterexample run happens: noon, March 10 2024. -/
def nowC : DateTime := ⟨2024, 3, 10, 12, 0, 0⟩

/-- A row published the morning of the window's first day — earlier than
`now - 7 days` (noon) but still on the same calendar date. -/
def rowB : Row :=
  ⟨"AAPL", "Old-day story", some "c", "https://x/b", "NewsAPI (Y)",
    "2024-03-03 05:00:00"⟩

/-! ## Lemmas about the lexicographic comparison -/

theorem lexLeb_refl : ∀ l : List Char, lexLeb l l = true
  | [] => rfl
  | _ :: as => by simp [lexLeb, lexLeb_refl as]

theorem lexLeb_eq_nil : ∀ l : List Char, lexLeb l [] = true → l = []
  | [], _ => rfl
  | _ :: _, h => by simp [lexLeb] at h

theorem lexLeb_trans :
    ∀ a b c : List Char, lexLeb a b = true → lexLeb b c = true → lexLeb a c = true
  | [], _, _, _, _ => rfl
  | _ :: _, [], _, h1, _ => by simp [lexLeb] at h1
  | _ :: _, _ :: _, [], _, h2 => by simp [lexLeb] at h2
  | a :: as, b :: bs, c :: cs, h1, h2 => by
    simp only [lexLeb] at h1 h2 ⊢
    by_cases hab : a = b
    · subst hab
      rw [if_pos rfl] at h1
      by_cases hbc : a = c
      · subst hbc
        rw [if_pos rfl] at h2 ⊢
        exact lexLeb_trans as bs cs h1 h2
      · rw [if_neg hbc] at h2 ⊢
        exact h2
    · rw [if_neg hab] at h1
      have hab2 : a < b := of_decide_eq_true h1
      by_cases hbc : b = c
      · subst hbc
        rw [if_neg (ne_of_lt hab2)]
        exact decide_eq_true hab2
      · rw [if_neg hbc] at h2
        have hbc2 : b < c := of_decide_eq_true h2
        have hac : a < c := lt_trans hab2 hbc2
        rw [if_neg (ne_of_lt hac)]
        exact decide_eq_true hac

theorem lexLeb_total : ∀ a b : List Char, lexLeb a b = true ∨ lexLeb b a = true
  | [], _ => Or.inl rfl
  | _ :: _, [] => Or.inr rfl
  | a :: as, b :: bs => by
    simp only [lexLeb]
    by_cases hab : a = b
    · subst hab
      rw [if_pos rfl, if_pos rfl]
      exact lexLeb_total as bs
    · rw [if_neg hab, if_neg (Ne.symm hab)]
      rcases lt_or_gt_of_ne hab with h | h
      · exact Or.inl (decide_eq_true h)
      · exact Or.inr (decide_eq_true h)

theorem lexLeb_self_append : ∀ a b : List Char, lexLeb a (a ++ b) = true
  | [], _ => rfl
  | x :: xs, b => by simp [lexLeb, lexLeb_self_append xs b]

theorem pyLe_refl (s : String) : pyLe s s = true := lexLeb_refl s.data

theorem pyLe_trans {a b c : String} (h1 : pyLe a b = true) (h2 : pyLe b c = true) :
    pyLe a c = true := lexLeb_trans a.data b.data c.data h1 h2

theorem pyLe_total (a b : String) : pyLe a b = true ∨ pyLe b a = true :=
  lexLeb_total a.data b.data

theorem pyLe_empty_right {s : String} (h : pyLe s "" = true) : s = "" := by
  cases s with
  | mk l => have := lexLeb_eq_nil l h; simp [this]

/-! ## Lemmas about the store and the watermark -/

theorem maxPub_eq_none : ∀ l : List String, maxPub l = none → l = []
  | [], _ => rfl
  | s :: rest, h => by
    simp only [maxPub] at h
    cases hr : maxPub rest <;> rw [hr] at h <;> simp at h

theorem maxPub_mem : ∀ (l : List String) (m : String), maxPub l = some m → m ∈ l
  | [], m, h => by simp [maxPub] at h
  | s :: rest, m, h => by
    simp only [maxPub] at h
    cases hr : maxPub rest with
    | none =>
      rw [hr] at h
      injection h with h
      simp [← h]
    | some m2 =>
      rw [hr] at h
      injection h with h
      by_cases hle : pyLe s m2 = true
      · rw [if_pos hle] at h
        exact List.mem_cons_of_mem s (h ▸ maxPub_mem rest m2 hr)
      · rw [if_neg hle] at h
        simp [← h]

theorem le_maxPub :
    ∀ (l : List String) (x m : String), x ∈ l → maxPub l = some m → pyLe x m = true
  | [], _, _, hx, _ => absurd hx (List.not_mem_nil _)
  | s :: rest, x, m, hx, h => by
    simp only [maxPub] at h
    cases hr : maxPub rest with
    | none =>
      have hrest : rest = [] := maxPub_eq_none rest hr
      rw [hr] at h
      injection h with h
      subst hrest
      rcases List.mem_singleton.mp hx with rfl
      exact h ▸ pyLe_refl x
    | some m2 =>
      rw [hr] at h
      injection h with h
      rcases List.mem_cons.mp hx with rfl | hx2
      · by_cases hle : pyLe x m2 = true
        · rw [if_pos hle] at h
          exact h ▸ hle
        · rw [if_neg hle] at h
          exact h ▸ pyLe_refl x
      · have hx2le : pyLe x m2 = true := le_maxPub rest x m2 hx2 hr
        by_cases hle : pyLe s m2 = true
        · rw [if_pos hle] at h
          exact h ▸ hx2le
        · rw [if_neg hle] at h
          rcases pyLe_total s m2 with hsm | hms
          · exact absurd hsm hle
          · exact h ▸ pyLe_trans hx2le hms

theorem insertOrIgnore_extends (db : List Row) (r : Row) :
    ∃ e, insertOrIgnore db r = db ++ e := by
  unfold insertOrIgnore
  by_cases h : db.any (fun q => q.url == r.url) = true
  · exact ⟨[], by simp [h]⟩
  · exact ⟨[r], by simp [h]⟩

theorem collectRun_extends :
    ∀ (cands db : List Row), ∃ ext, collectRun db cands = db ++ ext
  | [], db => ⟨[], by simp [collectRun]⟩
  | c :: cs, db => by
    obtain ⟨e, he⟩ := insertOrIgnore_extends db c
    obtain ⟨ext, hext⟩ := collectRun_extends cs (insertOrIgnore db c)
    refine ⟨e ++ ext, ?_⟩
    have : collectRun db (c :: cs) = collectRun (insertOrIgnore db c) cs := rfl
    rw [this, hext, he, List.append_assoc]

/-! ## Claim C1: store idempotence and the boolean result -/

/-- C1 counterexample: storing the same url twice leaves exactly one row, but
the second call returns `true`, not `false` as the claim states — the
`INSERT OR IGNORE` raises no `sqlite3.Error`, and `store_article` returns
`False` only on a raised error. -/
theorem store_second_call_not_false :
    (store_article (store_article [] false rowA).1 false rowA).1.length = 1 ∧
    (store_article (store_article [] false rowA).1 false rowA).2 ≠ false := by
  decide

/-- C1 (amended): calling `store_article` twice with an identical (fresh) url
inserts exactly one row, and BOTH calls return `true`; the boolean reports only
that no database error was raised (`false` exactly on the caught
`sqlite3.Error`), not whether a row was newly inserted. -/
theorem store_twice_single_row (db : List Row) (r : Row)
    (h : r.url ∉ db.map Row.url) :
    store_article db false r = (db ++ [r], true) ∧
    store_article (db ++ [r]) false r = (db ++ [r], true) ∧
    ((db ++ [r]).filter fun q => q.url == r.url).length = 1 ∧
    ∀ (db2 : List Row) (r2 : Row), store_article db2 true r2 = (db2, false) := by
  have hany : db.any (fun q => q.url == r.url) = false := by
    rw [Bool.eq_false_iff]
    intro hc
    rcases List.any_eq_true.mp hc with ⟨q, hq, hqe⟩
    exact h (List.mem_map.mpr ⟨q, hq, beq_iff_eq.mp hqe⟩)
  refine ⟨?_, ?_, ?_, fun _ _ => rfl⟩
  · simp [store_article, insertOrIgnore, hany]
  · have : (db ++ [r]).any (fun q => q.url == r.url) = true :=
      List.any_eq_true.mpr ⟨r, by simp, by simp⟩
    simp [store_article, insertOrIgnore, this]
  · rw [List.filter_append]
    have h1 : db.filter (fun q => q.url == r.url) = [] :=
      List.filter_eq_nil_iff.mpr fun q hq hc =>
        h (List.mem_map.mpr ⟨q, hq, beq_iff_eq.mp hc⟩)
    simp [h1]

/-- C1 witness: the amended statement at a concrete fresh row. -/
theorem store_twice_single_row_witness :
    store_article [] false rowA = ([rowA], true) :=
  (store_twice_single_row [] rowA (by decide)).1

/-! ## Claim C5: watermark monotonicity across a collection run -/

/-- C5: for every table state, candidate batch and ticker, the watermark
`get_latest_published_date` after the store loop of a collection run is ≥ its
value before the run — the store only ever appends rows, and the watermark is
the maximum `published_at` over the ticker's rows. -/
theorem watermark_monotone (db cands : List Row) (t : String) :
    wmLe (get_latest_published_date db t)
      (get_latest_published_date (collectRun db cands) t) := by
  cases hb : get_latest_published_date db t with
  | none => simp [wmLe]
  | some w =>
    unfold get_latest_published_date at hb
    cases hm : maxPub ((db.filter (fun r => r.ticker == t)).map Row.published_at) with
    | none => rw [hm] at hb; simp at hb
    | some m =>
      simp only [hm] at hb
      by_cases hme : m = ""
      · rw [if_pos hme] at hb; simp at hb
      · rw [if_neg hme] at hb
        injection hb with hb
        subst hb
        obtain ⟨ext, hext⟩ := collectRun_extends cands db
        have hmem : m ∈ (db.filter (fun r => r.ticker == t)).map Row.published_at :=
          maxPub_mem _ _ hm
        have hmem2 : m ∈ ((collectRun db cands).filter
            (fun r => r.ticker == t)).map Row.published_at := by
          rw [hext, List.filter_append, List.map_append]
          exact List.mem_append_left _ hmem
        cases hm2 : maxPub (((collectRun db cands).filter
            (fun r => r.ticker == t)).map Row.published_at) with
        | none =>
          have h0 := maxPub_eq_none _ hm2
          rw [h0] at hmem2
          exact absurd hmem2 (List.not_mem_nil _)
        | some m2 =>
          have hle : pyLe m m2 = true := le_maxPub _ _ _ hmem2 hm2
          have hm2e : m2 ≠ "" := by
            intro hc
            exact hme (pyLe_empty_right (hc ▸ hle))
          unfold get_latest_published_date
          simp only [hm2, if_neg hm2e]
          exact hle

/-! ## Claim C7: error degradation of the sentiment queries -/

/-- C7: a raised store query degrades each per-side sentiment function to a
well-formed result with count 0, score 0.0 and the error string attached, and
an empty query result yields the zeroed result — no exception propagates. -/
theorem sentiment_error_degradation (scorer : String → ℚ) (e : String) :
    get_news_sentiment scorer (.error e) = ⟨0, 0, [], [], some e⟩ ∧
    get_social_sentiment scorer (.error e) = ⟨0, 0, some e⟩ ∧
    get_news_sentiment scorer (.ok []) = ⟨0, 0, [], [], none⟩ ∧
    get_social_sentiment scorer (.ok []) = ⟨0, 0, none⟩ := by
  refine ⟨rfl, rfl, ?_, ?_⟩ <;> simp [get_news_sentiment, get_social_sentiment]

/-! ## Claim C8: orchestrator idempotence when nothing new arrives -/

/-- C8: when every candidate reaching the store loop carries a url already in
the table (no upstream data newer than the watermark), the run leaves the table
exactly unchanged — zero new rows. -/
theorem collect_idempotent :
    ∀ (cands db : List Row), (∀ c ∈ cands, c.url ∈ db.map Row.url) →
      collectRun db cands = db
  | [], db, _ => rfl
  | c :: cs, db, h => by
    have hc : c.url ∈ db.map Row.url := h c (List.mem_cons_self c cs)
    rcases List.mem_map.mp hc with ⟨q, hq, hqe⟩
    have hany : db.any (fun q => q.url == c.url) = true :=
      List.any_eq_true.mpr ⟨q, hq, beq_iff_eq.mpr hqe⟩
    have h1 : collectRun db (c :: cs) = collectRun (insertOrIgnore db c) cs := rfl
    rw [h1]
    rw [show insertOrIgnore db c = db by simp [insertOrIgnore, hany]]
    exact collect_idempotent cs db fun x hx => h x (List.mem_cons_of_mem c hx)

/-- C8 witness: re-offering an already stored row changes nothing. -/
theorem collect_idempotent_witness : collectRun [rowA] [rowA] = [rowA] :=
  collect_idempotent [rowA] [rowA] (by decide)

/-! ## Claim C10: falsy text short-circuits to a neutral 0.0 -/

/-- C10: `analyze_sentiment` returns exactly 0.0 for `None` and for the empty
string without consulting the scorer (the result is scorer-independent on falsy
text), and the per-record scoring keeps one score per queried record — a record
with no text is counted, not excluded. -/
theorem analyze_sentiment_falsy (f g : String → ℚ) (l : List Row) :
    analyze_sentiment f none = 0 ∧
    analyze_sentiment f (some "") = 0 ∧
    (∀ t, t = none ∨ t = some "" → analyze_sentiment f t = analyze_sentiment g t) ∧
    (recordScores f l).length = l.length ∧
    (get_social_sentiment f (.ok l)).count = l.length := by
  refine ⟨rfl, by simp [analyze_sentiment], ?_, by simp [recordScores], ?_⟩
  · rintro t (rfl | rfl) <;> simp [analyze_sentiment]
  · cases l <;> simp [get_social_sentiment]

/-! ## Claim C2: the overall sentiment blend and label -/

/-- C2: the overall score is the count-weighted average of the news and social
means (0 when both counts are 0); the label is "Positive" above 0.1, "Negative"
below -0.1, "Neutral" between; and the spec's worked example
(0.5 over 10 news, -0.2 over 10 social) yields 0.15, labelled "Positive". -/
theorem overall_blend (n s : ℚ) (nc sc : ℕ) :
    (nc + sc = 0 → overallScore n s nc sc = 0) ∧
    (nc + sc ≠ 0 → overallScore n s nc sc = (n * nc + s * sc) / (nc + sc)) ∧
    (1/10 < overallScore n s nc sc →
      sentimentLabel (overallScore n s nc sc) = "Positive") ∧
    (overallScore n s nc sc < -(1/10) →
      sentimentLabel (overallScore n s nc sc) = "Negative") ∧
    (-(1/10) ≤ overallScore n s nc sc → overallScore n s nc sc ≤ 1/10 →
      sentimentLabel (overallScore n s nc sc) = "Neutral") ∧
    overallScore (5/10) (-(2/10)) 10 10 = 15/100 ∧
    sentimentLabel (overallScore (5/10) (-(2/10)) 10 10) = "Positive" := by
  refine ⟨?_, ?_, ?_, ?_, ?_, ?_, ?_⟩
  · intro h; simp [overallScore, h]
  · intro h; simp [overallScore, h]
  · intro h; unfold sentimentLabel; rw [if_pos h]
  · intro h
    unfold sentimentLabel
    rw [if_neg (by linarith), if_pos h]
  · intro h1 h2
    unfold sentimentLabel
    rw [if_neg (by linarith), if_neg (by linarith)]
  · norm_num [overallScore]
  · norm_num [overallScore, sentimentLabel]

/-! ## Claim C3: the date normalizer -/

theorem mkValid_some {a dt : DateTime} (h : mkValid a = some dt) : validDT dt = true := by
  unfold mkValid at h
  split at h
  · injection h with h
    subst h
    assumption
  · exact absurd h (by simp)

theorem isoParse_valid {cs : List Char} {dt : DateTime} (h : isoParse cs = some dt) :
    validDT dt = true := by
  unfold isoParse at h
  cases hr : isoParseRaw cs <;> rw [hr] at h
  · simp at h
  · exact mkValid_some (by simpa using h)

theorem rfc822Parse_valid {s : String} {dt : DateTime} (h : rfc822Parse s = some dt) :
    validDT dt = true := by
  unfold rfc822Parse at h
  cases hr : rfc822ParseRaw s <;> rw [hr] at h
  · simp at h
  · exact mkValid_some (by simpa using h)

/-- Unfolding equation of `normalize_date` on a present string. -/
theorem normalize_date_some (now : DateTime) (s : String) :
    normalize_date now (some s) =
      (if s = "" then fmtDT now
       else if (containsList "GMT".data s.data || containsList "UTC".data s.data) = true then
         match rfc822Parse s with
         | some dt => fmtDT dt
         | none => fmtDT now
       else if s.data.contains 'T' = true then
         match isoParse (replaceZ s.data) with
         | some dt => fmtDT dt
         | none => fmtDT now
       else fmtDT now) := rfl

/-- Whatever the input, `normalize_date` returns `strftime`-formatted fields. -/
theorem normalize_is_fmt (now : DateTime) (raw : Option String) :
    ∃ dt, normalize_date now raw = fmtDT dt := by
  cases raw with
  | none => exact ⟨now, rfl⟩
  | some s =>
    rw [normalize_date_some]
    by_cases h0 : s = ""
    · rw [if_pos h0]; exact ⟨now, rfl⟩
    · rw [if_neg h0]
      by_cases h1 : (containsList "GMT".data s.data || containsList "UTC".data s.data) = true
      · rw [if_pos h1]
        cases hr : rfc822Parse s with
        | none => exact ⟨now, rfl⟩
        | some dt => exact ⟨dt, rfl⟩
      · rw [if_neg h1]
        by_cases h2 : s.data.contains 'T' = true
        · rw [if_pos h2]
          cases hr : isoParse (replaceZ s.data) with
          | none => exact ⟨now, rfl⟩
          | some dt => exact ⟨dt, rfl⟩
        · rw [if_neg h2]; exact ⟨now, rfl⟩

/-- As `normalize_is_fmt`, and the fields are in the valid `datetime` ranges
whenever the current time is. -/
theorem normalize_canonical (now : DateTime) (raw : Option String)
    (hn : validDT now = true) :
    ∃ dt, validDT dt = true ∧ normalize_date now raw = fmtDT dt := by
  cases raw with
  | none => exact ⟨now, hn, rfl⟩
  | some s =>
    rw [normalize_date_some]
    by_cases h0 : s = ""
    · rw [if_pos h0]; exact ⟨now, hn, rfl⟩
    · rw [if_neg h0]
      by_cases h1 : (containsList "GMT".data s.data || containsList "UTC".data s.data) = true
      · rw [if_pos h1]
        cases hr : rfc822Parse s with
        | none => exact ⟨now, hn, rfl⟩
        | some dt => exact ⟨dt, rfc822Parse_valid hr, rfl⟩
      · rw [if_neg h1]
        by_cases h2 : s.data.contains 'T' = true
        · rw [if_pos h2]
          cases hr : isoParse (replaceZ s.data) with
          | none => exact ⟨now, hn, rfl⟩
          | some dt => exact ⟨dt, isoParse_valid hr, rfl⟩
        · rw [if_neg h2]; exact ⟨now, hn, rfl⟩

/-- Every digit character the formatter emits. -/
theorem digitChar_mem (n : ℕ) :
    digitChar n ∈ ['0', '1', '2', '3', '4', '5', '6', '7', '8', '9'] := by
  unfold digitChar
  have h10 : n % 10 < 10 := Nat.mod_lt _ (by norm_num)
  generalize hk : n % 10 = k
  rw [hk] at h10
  interval_cases k <;> decide

/-- Reading back an emitted digit recovers the digit. -/
theorem digitVal_digitChar (n : ℕ) : digitVal (digitChar n) = some (n % 10) := by
  unfold digitChar digitVal
  have h10 : n % 10 < 10 := Nat.mod_lt _ (by norm_num)
  generalize hk : n % 10 = k
  rw [hk] at h10
  interval_cases k <;> decide

/-- Parsing a two-digit rendering recovers the number. -/
theorem parse2_pad2 (n : ℕ) (hn : n < 100) (rest : List Char) :
    parse2 (pad2ch n ++ rest) = some (n, rest) := by
  show parse2 (digitChar (n / 10) :: digitChar n :: rest) = some (n, rest)
  simp [parse2, digitVal_digitChar]
  omega

/-- Parsing a four-digit rendering recovers the number. -/
theorem parse4_pad4 (n : ℕ) (hn : n < 10000) (rest : List Char) :
    parse4 (pad4ch n ++ rest) = some (n, rest) := by
  show parse4 (digitChar (n / 1000) :: digitChar (n / 100) :: digitChar (n / 10)
    :: digitChar n :: rest) = some (n, rest)
  simp [parse4, digitVal_digitChar]
  omega

/-- Parsing the rendered `:MM:SS` clock tail recovers minute and second. -/
theorem timeTail_pads (mi s : ℕ) (hmi : mi < 100) (hs : s < 100) :
    timeTail (':' :: (pad2ch mi ++ (':' :: pad2ch s))) = some (mi, s) := by
  have e1 : parse2 (pad2ch mi ++ (':' :: pad2ch s)) = some (mi, ':' :: pad2ch s) :=
    parse2_pad2 mi hmi _
  have e2 : parse2 (pad2ch s ++ []) = some (s, []) := parse2_pad2 s hs []
  rw [List.append_nil] at e2
  simp [timeTail, e1, e2, fracOffsetEnd]

theorem daysInMonth_le (y m : ℕ) : daysInMonth y m ≤ 31 := by
  unfold daysInMonth
  split_ifs <;> norm_num

/-- Printer–parser round-trip: the embedded `fromisoformat` recovers exactly the
fields of any valid date-time from its ISO rendering. -/
theorem isoParse_isoRender (dt : DateTime) (h : validDT dt = true) :
    isoParse ((isoRender dt).data) = some dt := by
  have h0 := h
  unfold validDT at h
  simp only [Bool.and_eq_true, decide_eq_true_eq] at h
  obtain ⟨⟨⟨⟨⟨⟨⟨⟨hy1, hy2⟩, hm1⟩, hm2⟩, hd1⟩, hd2⟩, hh⟩, hmi⟩, hs⟩ := h
  have hy : dt.year < 10000 := by omega
  have hm : dt.month < 100 := by omega
  have hd : dt.day < 100 :=
    lt_of_le_of_lt (le_trans hd2 (daysInMonth_le _ _)) (by norm_num)
  have hh2 : dt.hour < 100 := by omega
  have hmi2 : dt.minute < 100 := by omega
  have hs2 : dt.second < 100 := by omega
  have hL : (isoRender dt).data =
      pad4ch dt.year ++ ('-' :: (pad2ch dt.month ++ ('-' :: (pad2ch dt.day ++
        ('T' :: (pad2ch dt.hour ++ (':' :: (pad2ch dt.minute ++
          (':' :: pad2ch dt.second))))))))) := by
    simp [isoRender, fmtDateCh, fmtTimeCh, List.append_assoc]
  have e1 := parse4_pad4 dt.year hy ('-' :: (pad2ch dt.month ++ ('-' ::
    (pad2ch dt.day ++ ('T' :: (pad2ch dt.hour ++ (':' :: (pad2ch dt.minute ++
      (':' :: pad2ch dt.second)))))))))
  have e2 := parse2_pad2 dt.month hm ('-' :: (pad2ch dt.day ++ ('T' ::
    (pad2ch dt.hour ++ (':' :: (pad2ch dt.minute ++ (':' :: pad2ch dt.second)))))))
  have e3 := parse2_pad2 dt.day hd ('T' :: (pad2ch dt.hour ++ (':' ::
    (pad2ch dt.minute ++ (':' :: pad2ch dt.second)))))
  have e4 := parse2_pad2 dt.hour hh2 (':' :: (pad2ch dt.minute ++
    (':' :: pad2ch dt.second)))
  have e5 := timeTail_pads dt.minute dt.second hmi2 hs2
  rw [hL]
  simp [isoParse, isoParseRaw, e1, e2, e3, e4, e5, expectCh, mkValid, h0]

theorem containsList_head_mem :
    ∀ (c : Char) (n hay : List Char), containsList (c :: n) hay = true → c ∈ hay
  | c, n, [], h => by simp [containsList, startsWithList] at h
  | c, n, b :: bs, h => by
    simp only [containsList, Bool.or_eq_true] at h
    rcases h with h1 | h2
    · simp only [startsWithList, Bool.and_eq_true, decide_eq_true_eq] at h1
      rcases h1 with ⟨rfl, -⟩
      exact List.mem_cons_self _ _
    · exact List.mem_cons_of_mem b (containsList_head_mem c n bs h2)

theorem not_containsList {c : Char} (n : List Char) {hay : List Char}
    (h : ∀ x ∈ hay, x ≠ c) : containsList (c :: n) hay = false :=
  Bool.eq_false_iff.mpr fun hc => h c (containsList_head_mem c n hay hc) rfl

theorem replaceZ_eq_self : ∀ l : List Char, (∀ x ∈ l, x ≠ 'Z') → replaceZ l = l
  | [], _ => rfl
  | c :: cs, h => by
    unfold replaceZ
    rw [if_neg (h c (List.mem_cons_self c cs)), replaceZ_eq_self cs
      fun x hx => h x (List.mem_cons_of_mem c hx)]

/-- Every character of an ISO rendering is a digit, `-`, `T` or `:`. -/
theorem forall_mem_isoRender {c : Char}
    (hc : c ∉ ['0', '1', '2', '3', '4', '5', '6', '7', '8', '9', '-', 'T', ':'])
    (dt : DateTime) : ∀ x ∈ (isoRender dt).data, x ≠ c := by
  have hdig : ∀ k, digitChar k ≠ c := by
    intro k hk
    apply hc
    have hmem := digitChar_mem k
    rw [hk] at hmem
    simp only [List.mem_cons, List.not_mem_nil, or_false] at hmem ⊢
    tauto
  have hdash : ¬(('-' : Char) = c) := fun he => hc (he ▸ (by decide :
    ('-' : Char) ∈ ['0', '1', '2', '3', '4', '5', '6', '7', '8', '9', '-', 'T', ':']))
  have ht : ¬(('T' : Char) = c) := fun he => hc (he ▸ (by decide :
    ('T' : Char) ∈ ['0', '1', '2', '3', '4', '5', '6', '7', '8', '9', '-', 'T', ':']))
  have hcol : ¬((':' : Char) = c) := fun he => hc (he ▸ (by decide :
    (':' : Char) ∈ ['0', '1', '2', '3', '4', '5', '6', '7', '8', '9', '-', 'T', ':']))
  simp [isoRender, fmtDateCh, fmtTimeCh, pad4ch, pad2ch, List.forall_mem_append,
    List.forall_mem_cons, hdig, hdash, ht, hcol]

/-- Universal ISO round-trip through the dispatch: any string without a GMT/UTC
marker that contains a `T` and parses as ISO-8601 (after the `Z` rewrite)
normalizes to exactly the parsed date-time. -/
theorem normalize_iso_roundtrip (now : DateTime) (s : String) (dt : DateTime)
    (h1 : (containsList "GMT".data s.data || containsList "UTC".data s.data) = false)
    (h2 : s.data.contains 'T' = true)
    (hp : isoParse (replaceZ s.data) = some dt) :
    normalize_date now (some s) = fmtDT dt := by
  have h0 : s ≠ "" := by
    intro he
    rw [he] at h2
    exact absurd h2 (by decide)
  rw [normalize_date_some, if_neg h0, if_neg (by simp [h1]), if_pos h2, hp]

/-- Universal RFC-822 round-trip through the dispatch: any GMT/UTC-marked string
that parses as an RFC-822 date normalizes to exactly the parsed date-time. -/
theorem normalize_rfc_roundtrip (now : DateTime) (s : String) (dt : DateTime)
    (h1 : (containsList "GMT".data s.data || containsList "UTC".data s.data) = true)
    (hr : rfc822Parse s = some dt) :
    normalize_date now (some s) = fmtDT dt := by
  have h0 : s ≠ "" := by
    intro he
    rw [he] at h1
    exact absurd h1 (by decide)
  rw [normalize_date_some, if_neg h0, if_pos h1, hr]

/-- Universal round-trip over all valid date-times: the ISO rendering of any
valid date-time normalizes to the canonical string of the same date-time. -/
theorem normalize_isoRender_roundtrip (now dt : DateTime) (h : validDT dt = true) :
    normalize_date now (some (isoRender dt)) = fmtDT dt := by
  have hG : containsList "GMT".data (isoRender dt).data = false :=
    not_containsList _ (forall_mem_isoRender (by decide) dt)
  have hU : containsList "UTC".data (isoRender dt).data = false :=
    not_containsList _ (forall_mem_isoRender (by decide) dt)
  have hT : (isoRender dt).data.contains 'T' = true :=
    List.elem_eq_true_of_mem
      (show 'T' ∈ fmtDateCh dt ++ 'T' :: fmtTimeCh dt from
        List.mem_append_right _ (List.mem_cons_self _ _))
  have hZ : replaceZ (isoRender dt).data = (isoRender dt).data :=
    replaceZ_eq_self _ (forall_mem_isoRender (by decide) dt)
  exact normalize_iso_roundtrip now (isoRender dt) dt (by simp [hG, hU]) hT
    (by rw [hZ]; exact isoParse_isoRender dt h)

/-- C3: `normalize_date` is total — for every input (null, empty, malformed, or
well-formed) it returns a canonically formatted `YYYY-MM-DD HH:MM:SS` string
with in-range fields, never raising; the three-way dispatch sends GMT/UTC-marked
strings through the RFC-822 parser and 'T'-marked strings through the ISO-8601
parser (trailing `Z` read as offset `+00:00`), everything else to the current
time; and the round-trip is universal: EVERY successfully ISO-parsed input, and
the ISO rendering of EVERY valid date-time, normalize to exactly the same date
and time (sub-second precision dropped), likewise every successfully parsed
RFC-822 input. -/
theorem normalize_date_total (now : DateTime) (raw : Option String)
    (hn : validDT now = true) :
    (∃ dt, validDT dt = true ∧ normalize_date now raw = fmtDT dt) ∧
    (∀ (s : String) (dt : DateTime),
      (containsList "GMT".data s.data || containsList "UTC".data s.data) = false →
      s.data.contains 'T' = true →
      isoParse (replaceZ s.data) = some dt →
      normalize_date now (some s) = fmtDT dt) ∧
    (∀ (s : String) (dt : DateTime),
      (containsList "GMT".data s.data || containsList "UTC".data s.data) = true →
      rfc822Parse s = some dt →
      normalize_date now (some s) = fmtDT dt) ∧
    (∀ dt : DateTime, validDT dt = true →
      normalize_date now (some (isoRender dt)) = fmtDT dt) ∧
    normalize_date now none = fmtDT now ∧
    normalize_date now (some "") = fmtDT now ∧
    normalize_date now (some "March 5, 2024") = fmtDT now ∧
    normalize_date now (some "2024-03-05T14:30:00Z") = "2024-03-05 14:30:00" ∧
    normalize_date now (some "2024-12-31T23:59:59.123+05:30") = "2024-12-31 23:59:59" ∧
    normalize_date now (some "Tue, 05 Mar 2024 14:30:00 GMT") = "2024-03-05 14:30:00" :=
  ⟨normalize_canonical now raw hn,
   fun s dt => normalize_iso_roundtrip now s dt,
   fun s dt => normalize_rfc_roundtrip now s dt,
   fun dt => normalize_isoRender_roundtrip now dt,
   rfl, rfl, rfl, rfl, rfl, rfl⟩

/-- C3 witness: the theorem at a concrete clock and a concrete ISO input. -/
theorem normalize_date_total_witness :
    normalize_date ⟨2024, 1, 1, 0, 0, 0⟩ (some "2024-03-05T14:30:00Z") =
      "2024-03-05 14:30:00" :=
  (normalize_date_total ⟨2024, 1, 1, 0, 0, 0⟩ (some "2024-03-05T14:30:00Z")
    (by decide)).2.2.2.2.2.2.2.1

/-! ## Claim C4: adapter watermark filtering -/

/-- A canonical timestamp is never `<=` the empty string. -/
theorem pyLe_fmtDT_empty (dt : DateTime) : pyLe (fmtDT dt) "" = false := rfl

theorem rssCandidates_watermark (ticker w : String) (now : DateTime)
    (source : String) (entries : List FeedEntry) :
    ∀ c ∈ rssCandidates ticker (some w) now source entries,
      pyLe c.published_at w = false := by
  intro c hc
  unfold rssCandidates at hc
  rcases List.mem_filterMap.mp hc with ⟨e, _, hf⟩
  dsimp only at hf
  by_cases hskip : wmSkip (some w) (normalize_date now (some e.published)) = true
  · rw [if_pos hskip] at hf
    exact absurd hf (by simp)
  · rw [if_neg hskip] at hf
    by_cases hrel : containsList (upperStr ticker).data
        (upperStr (e.title ++ " " ++ e.summary)).data = true
    · rw [if_pos hrel] at hf
      injection hf with hf
      rw [← hf]
      by_cases hwe : w = ""
      · obtain ⟨dt, hdt⟩ := normalize_is_fmt now (some e.published)
        simp only [hdt, hwe]
        exact pyLe_fmtDT_empty dt
      · have := hskip
        simp only [wmSkip, if_neg hwe] at this
        exact Bool.not_eq_true _ ▸ Bool.eq_false_iff.mpr this
    · rw [if_neg hrel] at hf
      exact absurd hf (by simp)

theorem redditCandidates_watermark (ticker w : String) (now : DateTime)
    (subName : String) (subs : List Submission) :
    ∀ c ∈ redditCandidates ticker (some w) now subName subs,
      pyLe c.published_at w = false := by
  intro c hc
  unfold redditCandidates at hc
  rcases List.mem_filterMap.mp hc with ⟨p, _, hf⟩
  dsimp only at hf
  by_cases hskip : wmSkip (some w) (normalize_date now (some p.created_iso)) = true
  · rw [if_pos hskip] at hf
    exact absurd hf (by simp)
  · rw [if_neg hskip] at hf
    by_cases hrel : (containsList (upperStr ticker).data (upperStr p.title).data
        || containsList (upperStr ticker).data (upperStr p.selftext).data) = true
    · rw [if_pos hrel] at hf
      injection hf with hf
      rw [← hf]
      by_cases hwe : w = ""
      · obtain ⟨dt, hdt⟩ := normalize_is_fmt now (some p.created_iso)
        simp only [hdt, hwe]
        exact pyLe_fmtDT_empty dt
      · have := hskip
        simp only [wmSkip, if_neg hwe] at this
        exact Bool.not_eq_true _ ▸ Bool.eq_false_iff.mpr this
    · rw [if_neg hrel] at hf
      exact absurd hf (by simp)

/-- C4: whenever a non-null watermark is supplied, no candidate whose
normalized published date is `<=` the watermark appears in the sequence an
adapter returns — shown for the news RSS adapter loop and the Reddit adapter
(and hence none reaches the store loop). -/
theorem adapter_watermark_filter (ticker : String) (wm : Option String)
    (now : DateTime) (source : String) (entries : List FeedEntry)
    (srs : List (String × List Submission)) (w : String) (hw : wm = some w) :
    (∀ c ∈ rssCandidates ticker wm now source entries,
      pyLe c.published_at w = false) ∧
    (∀ c ∈ collect_reddit_posts ticker wm now srs,
      pyLe c.published_at w = false) := by
  subst hw
  refine ⟨rssCandidates_watermark ticker w now source entries, ?_⟩
  intro c hc
  unfold collect_reddit_posts at hc
  rcases List.mem_flatten.mp hc with ⟨l, hl, hcl⟩
  rcases List.mem_map.mp hl with ⟨sr, _, hsr⟩
  exact redditCandidates_watermark ticker w now sr.1 sr.2 c (hsr ▸ hcl)

/-- C4 witness: the theorem applied to a concrete watermark and entry. -/
theorem adapter_watermark_filter_witness :
    pyLe (Candidate.mk "AAPL up" "" "https://x/e" "RSS (X)"
      "2024-03-05 14:30:00").published_at "2024-01-01 00:00:00" = false :=
  (adapter_watermark_filter "AAPL" (some "2024-01-01 00:00:00") ⟨2024, 1, 1, 0, 0, 0⟩
    "X" [entryE] [] "2024-01-01 00:00:00" rfl).1
    (Candidate.mk "AAPL up" "" "https://x/e" "RSS (X)" "2024-03-05 14:30:00")
    (by decide)

/-! ## Claim C9: the day-window query -/

/-- The date-only bound is a prefix of, hence `<=`, the full timestamp of the
same moment. -/
theorem dateLimit_le_full (now : DateTime) (days : ℕ) :
    pyLe (dateLimit now days) (fmtDT (subDays now days)) = true :=
  lexLeb_self_append (fmtDateCh (subDays now days)) (' ' :: fmtTimeCh (subDays now days))

/-- C9 (amended): the records the aggregator scores are exactly the stored
records of the ticker whose `published_at` is `>=` the **date-only** string
`(now - days).strftime('%Y-%m-%d')` — i.e. the window opens at midnight of the
first day, not at the full timestamp `now - days`; every record at or after the
full timestamp is included, and each queried record contributes to the count. -/
theorem day_window (db : List Row) (t : String) (now : DateTime) (days : ℕ)
    (scorer : String → ℚ) (r : Row) :
    (r ∈ queryWindow db t now days ↔
      r ∈ db ∧ r.ticker = t ∧ pyLe (dateLimit now days) r.published_at = true) ∧
    (r ∈ db → r.ticker = t →
      pyLe (fmtDT (subDays now days)) r.published_at = true →
      r ∈ queryWindow db t now days) ∧
    (get_news_sentiment scorer (.ok (queryWindow db t now days))).count =
      (queryWindow db t now days).length ∧
    (get_social_sentiment scorer (.ok (queryWindow db t now days))).count =
      (queryWindow db t now days).length := by
  have hmem : r ∈ queryWindow db t now days ↔
      r ∈ db ∧ r.ticker = t ∧ pyLe (dateLimit now days) r.published_at = true := by
    unfold queryWindow sqlQuery
    rw [List.mem_filter]
    simp [and_assoc]
  refine ⟨hmem, ?_, ?_, ?_⟩
  · intro h1 h2 h3
    exact hmem.mpr ⟨h1, h2, pyLe_trans (dateLimit_le_full now days) h3⟩
  · cases queryWindow db t now days <;> simp [get_news_sentiment]
  · cases queryWindow db t now days <;> simp [get_social_sentiment]

/-- C9 counterexample: with `days = 7` from noon March 10, the code's window
bound is the date string "2024-03-03", so a record published 05:00 that day is
queried and scored although its `published_at` is strictly below the timestamp
`now - days` (= "2024-03-03 12:00:00") — refuting the claim that only records
with `published_at >= now - days` contribute. -/
theorem day_window_counterexample :
    queryWindow [rowB] "AAPL" nowC 7 = [rowB] ∧
    pyLe (fmtDT (subDays nowC 7)) rowB.published_at = false ∧
    (get_news_sentiment (fun _ => 0) (.ok (queryWindow [rowB] "AAPL" nowC 7))).count
      = 1 := by
  refine ⟨by decide, by decide, ?_⟩
  rw [show queryWindow [rowB] "AAPL" nowC 7 = [rowB] from by decide]
  rfl

/-! ## Claim C6: top-N selection and ordering -/

theorem insertDesc_perm (x : ℚ) : ∀ l : List ℚ, (insertDesc x l).Perm (x :: l)
  | [] => List.Perm.refl _
  | y :: ys => by
    unfold insertDesc
    by_cases h : y < x
    · rw [if_pos h]
    · rw [if_neg h]
      exact ((insertDesc_perm x ys).cons y).trans (List.Perm.swap x y ys)

theorem sortDesc_perm : ∀ l : List ℚ, (sortDesc l).Perm l
  | [] => List.Perm.refl _
  | a :: l => by
    have h1 : sortDesc (a :: l) = insertDesc a (sortDesc l) := rfl
    rw [h1]
    exact (insertDesc_perm a (sortDesc l)).trans ((sortDesc_perm l).cons a)

theorem insertDesc_sorted (x : ℚ) :
    ∀ l : List ℚ, l.Pairwise (fun a b => b ≤ a) →
      (insertDesc x l).Pairwise (fun a b => b ≤ a)
  | [], _ => by simp [insertDesc]
  | y :: ys, h => by
    unfold insertDesc
    rcases List.pairwise_cons.mp h with ⟨hy, hys⟩
    by_cases hlt : y < x
    · rw [if_pos hlt]
      refine List.Pairwise.cons ?_ h
      intro z hz
      rcases List.mem_cons.mp hz with rfl | hz2
      · exact le_of_lt hlt
      · exact le_trans (hy z hz2) (le_of_lt hlt)
    · rw [if_neg hlt]
      refine List.Pairwise.cons ?_ (insertDesc_sorted x ys hys)
      intro z hz
      rcases List.mem_cons.mp ((insertDesc_perm x ys).mem_iff.mp hz) with rfl | hz2
      · exact le_of_not_lt hlt
      · exact hy z hz2

theorem sortDesc_sorted : ∀ l : List ℚ, (sortDesc l).Pairwise (fun a b => b ≤ a)
  | [] => List.Pairwise.nil
  | a :: l => insertDesc_sorted a (sortDesc l) (sortDesc_sorted l)

/-- On a list where the predicate only propagates backwards (once it fails, it
fails for the rest), filtering a prefix is a prefix of the filtered list. -/
theorem filter_take_comm (p : ℚ → Bool) :
    ∀ l : List ℚ, l.Pairwise (fun a b => p b = true → p a = true) →
      ∀ n, (l.take n).filter p = (l.filter p).take n
  | [], _, n => by simp
  | x :: xs, h, 0 => by simp
  | x :: xs, h, n + 1 => by
    rcases List.pairwise_cons.mp h with ⟨hx, hxs⟩
    rw [List.take_succ_cons]
    by_cases hp : p x = true
    · rw [List.filter_cons_of_pos hp, List.filter_cons_of_pos hp,
        List.take_succ_cons, filter_take_comm p xs hxs n]
    · have hfx : p x = false := Bool.eq_false_iff.mpr hp
      have hall : ∀ y ∈ xs, p y = false := fun y hy =>
        Bool.eq_false_iff.mpr fun hc => hp (hx y hy hc)
      have h1 : (xs.take n).filter p = [] := List.filter_eq_nil_iff.mpr
        fun a ha hc => Bool.eq_false_iff.mp (hall a (List.mem_of_mem_take ha)) hc
      have h2 : xs.filter p = [] := List.filter_eq_nil_iff.mpr
        fun a ha hc => Bool.eq_false_iff.mp (hall a ha) hc
      rw [List.filter_cons_of_neg hp, List.filter_cons_of_neg hp, h1, h2]
      simp

theorem topPositive_eq (scores : List ℚ) :
    topPositive scores = ((sortDesc scores).filter fun x => decide (0 < x)).take 10 :=
  filter_take_comm _ (sortDesc scores)
    ((sortDesc_sorted scores).imp fun h hb =>
      decide_eq_true (lt_of_lt_of_le (of_decide_eq_true hb) h)) 10

theorem topNegative_eq (scores : List ℚ) :
    topNegative scores =
      ((sortDesc scores).reverse.filter fun x => decide (x < 0)).take 10 := by
  unfold topNegative
  have hdrop : (sortDesc scores).drop ((sortDesc scores).length - 10) =
      ((sortDesc scores).reverse.take 10).reverse := by
    rw [List.take_reverse, List.reverse_reverse]
  rw [hdrop, List.filter_reverse, List.reverse_reverse]
  refine filter_take_comm _ (sortDesc scores).reverse ?_ 10
  refine List.pairwise_reverse.mpr ?_
  exact (sortDesc_sorted scores).imp fun h ha =>
    decide_eq_true (lt_of_le_of_lt h (of_decide_eq_true ha))

/-- C6 (amended): `top_positive` is exactly the first ten of the descending
ranking restricted to positive scores (the ten highest positives, descending),
and `top_negative` is exactly the first ten of the ascending ranking restricted
to negative scores (the ten most negative, most-negative-first); on the spec's
example scores, `top_positive = [0.9, 0.3]` but
`top_negative = [-0.8, -0.6, -0.1]` — the `-0.1` record also qualifies under
`score < 0` among the ten most negative. -/
theorem top_selection (scores : List ℚ) :
    topPositive scores = ((sortDesc scores).filter fun x => decide (0 < x)).take 10 ∧
    topNegative scores =
      ((sortDesc scores).reverse.filter fun x => decide (x < 0)).take 10 ∧
    (sortDesc scores).Perm scores ∧
    (sortDesc scores).Pairwise (fun a b => b ≤ a) ∧
    topPositive [9/10, 3/10, -(1/10), -(6/10), -(8/10)] = [9/10, 3/10] ∧
    topNegative [9/10, 3/10, -(1/10), -(6/10), -(8/10)] =
      [-(8/10), -(6/10), -(1/10)] := by
  refine ⟨topPositive_eq scores, topNegative_eq scores, sortDesc_perm scores,
    sortDesc_sorted scores, ?_, ?_⟩
  · norm_num [topPositive, sortDesc, insertDesc, List.filter]
  · norm_num [topNegative, sortDesc, insertDesc, List.filter]

/-- C6 counterexample: on the spec's example scores
`[0.9, 0.3, -0.1, -0.6, -0.8]`, `top_negative` is NOT `[-0.8, -0.6]` as the
claim's example states — the code also keeps `-0.1`. -/
theorem top_negative_example_refuted :
    topNegative [9/10, 3/10, -(1/10), -(6/10), -(8/10)] ≠ [-(8/10), -(6/10)] := by
  norm_num [topNegative, sortDesc, insertDesc, List.filter]
